import Mathlib

-- Verification of the crates_proxy caching reverse proxy.
-- Shallow embedding of src/cache.rs, src/crates_api.rs, src/version_manager.rs
-- and src/proxy.rs as pure Lean functions with explicit state passing.
-- Machine integers (u32/u64 timestamps, byte values) are modelled as Nat;
-- the filesystem and the melange_db key-value trees are modelled as
-- association lists; fallible code returns Except.

-- ## Generic helpers: association lists keyed by String

def lookupKV {β : Type} (k : String) : List (String × β) → Option β
  | [] => none
  | (a, b) :: rest => if a == k then some b else lookupKV k rest

def removeKV {β : Type} (k : String) (l : List (String × β)) : List (String × β) :=
  l.filter (fun p => !(p.1 == k))

def insertKV {β : Type} (k : String) (v : β) (l : List (String × β)) : List (String × β) :=
  (k, v) :: removeKV k l

-- ## String helpers mirroring Rust primitives
-- Rust str::starts_with compares byte sequences; on valid UTF-8 this agrees
-- with character-sequence comparison, which is how we model it.

def pfxOf : List Char → List Char → Bool
  | [], _ => true
  | _ :: _, [] => false
  | a :: as, b :: bs => a == b && pfxOf as bs

def strStarts (s p : String) : Bool := pfxOf p.data s.data

-- range.chars().filter(|&c| c == '.').count()
def dotCount (s : String) : Nat := (s.data.filter (fun c => c == '.')).length

-- Rust Ord for str: lexicographic byte comparison.  On valid UTF-8 the byte
-- order coincides with the code-point order used here.
def numLt : List Char → List Char → Bool
  | [], [] => false
  | [], _ :: _ => true
  | _ :: _, [] => false
  | a :: as, b :: bs =>
    if a.toNat < b.toNat then true
    else if b.toNat < a.toNat then false
    else numLt as bs

def strLtRust (a b : String) : Bool := numLt a.data b.data

-- path.split('/') in Rust: splitting "" yields [""], separators at the ends
-- yield empty segments.
def splitOnSlash : List Char → List (List Char)
  | [] => [[]]
  | c :: cs =>
    let r := splitOnSlash cs
    if c == '/' then [] :: r
    else
      match r with
      | [] => [[c]]
      | h :: t => (c :: h) :: t

def splitPath (s : String) : List String :=
  (splitOnSlash s.data).map (fun cs => String.mk cs)

-- ## src/crates_api.rs

-- struct CrateVersion
structure CrateVersion where
  num : String
  dl_path : String
  checksum : String
  yanked : Bool
deriving DecidableEq, Repr

-- CratesApiClient::select_version_for_range (crates_api.rs:338-356)
def select_version_for_range (versions : List CrateVersion) (range : String) :
    Option CrateVersion :=
  versions.find? (fun v =>
    !v.yanked && (
      v.num == range ||
      strStarts v.num range ||
      (dotCount range == 0 && strStarts v.num (range ++ ".")) ||
      (dotCount range == 1 && strStarts v.num (range ++ "."))))

-- enum ApiError (crates_api.rs:359-384); only the variants reachable from the
-- request path are modelled.
inductive ApiError where
  | httpError (code : Nat) (body : String)
  | downloadFailed (code : Nat) (msg : String)
  | parseError (msg : String)
  | invalidFileFormat (msg : String)
  | ioError (msg : String)
deriving DecidableEq, Repr

-- thiserror Display strings of ApiError; note that httpError renders both of
-- its fields ("HTTP错误: {0} - {1}") while downloadFailed renders only the
-- status code ("下载失败: {0}").
def ApiError.display : ApiError → String
  | .httpError code body => "HTTP错误: " ++ toString code ++ " - " ++ body
  | .downloadFailed code _ => "下载失败: " ++ toString code
  | .parseError msg => "解析错误: " ++ msg
  | .invalidFileFormat msg => "无效的文件格式: " ++ msg
  | .ioError msg => "IO错误: " ++ msg

-- get_available_versions, non-2xx branch (crates_api.rs:200-203): the raw
-- upstream response bytes become the second field of HttpError.
def getAvailableVersionsHttpErr (code : Nat) (upstreamBody : String) : ApiError :=
  .httpError code upstreamBody

-- download_crate_version (crates_api.rs:127-172), modelled on the upstream
-- response (status code and body bytes); the filesystem write is elided since
-- only the error construction matters here.
def download_crate_version (code : Nat) (data : List Nat) : Except ApiError Unit :=
  if code ≠ 200 then
    .error (.downloadFailed code ("下载失败: HTTP " ++ toString code))
  else if !(data.take 2 == [0x1f, 0x8b]) then
    .error (.invalidFileFormat "文件不是有效的gzip格式")
  else
    .ok ()

-- ## src/cache.rs

inductive CacheErr where
  | ioError (msg : String)
  | pathError (msg : String)
deriving DecidableEq, Repr

-- A file on disk: its byte content and its creation time in seconds since the
-- Unix epoch (none when fs metadata / creation time is unreadable).
structure FsFile where
  content : List Nat
  created : Option Nat
deriving DecidableEq, Repr

-- The cache directory tree, as a map from absolute path to file.
structure CacheFs where
  files : List (String × FsFile)
deriving DecidableEq, Repr

-- CacheManager::get_cache_path (cache.rs:38-52); the mkdir side effect is not
-- observable in this model.
def get_cache_path (root crateName version filename : String) : String :=
  root ++ "/" ++ crateName ++ "/" ++ version ++ "/" ++ filename

-- CacheManager::is_cached (cache.rs:54-57): pure existence check, the TTL is
-- not consulted ("临时禁用TTL检查").
def is_cached (fs : CacheFs) (root crateName version filename : String) : Bool :=
  (lookupKV (get_cache_path root crateName version filename) fs.files).isSome

-- CacheManager::is_expired (cache.rs:59-69).  Note: the code computes
-- elapsed = created.duration_since(UNIX_EPOCH), i.e. the creation TIMESTAMP,
-- and compares that against the TTL; the current time is never read.
def is_expired (fs : CacheFs) (default_ttl : Nat) (path : String) : Bool :=
  match lookupKV path fs.files with
  | some file =>
    match file.created with
    | some created => decide (created > default_ttl)
    | none => true
  | none => true

-- What the spec claims is_expired computes: age (now - created) > ttl.
def specIsExpired (now created ttl : Nat) : Bool := decide (now - created > ttl)

-- CacheManager::get_cached_content (cache.rs:71-79)
def get_cached_content (fs : CacheFs) (root crateName version filename : String) :
    Except CacheErr (List Nat) :=
  if is_cached fs root crateName version filename then
    match lookupKV (get_cache_path root crateName version filename) fs.files with
    | some file => .ok file.content
    | none => .error (.ioError "读取失败")
  else
    .error (.pathError "缓存不存在或已过期")

-- CacheManager::save_to_cache (cache.rs:81-91); `now` is the creation time the
-- filesystem records for the written file.
def save_to_cache (fs : CacheFs) (root crateName version filename : String)
    (content : List Nat) (now : Nat) : CacheFs :=
  ⟨insertKV (get_cache_path root crateName version filename)
    ⟨content, some now⟩ fs.files⟩

-- ## src/version_manager.rs

-- struct VersionInfo
structure VersionInfo where
  version : String
  download_path : String
  checksum : String
  yanked : Bool
  created_at : Nat
  expires_at : Nat
deriving DecidableEq, Repr

-- struct LatestVersionMapping
structure LatestVersionMapping where
  crate_name : String
  latest_version : String
  updated_at : Nat
  expires_at : Nat
deriving DecidableEq, Repr

-- VersionManager state: the two melange_db trees and the in-process map.
-- `now` (seconds since epoch) and the default TTL are passed to the
-- operations that read the clock.
structure VMState where
  versionsTree : List (String × VersionInfo)
  latestTree : List (String × LatestVersionMapping)
  memoryCache : List (String × String)
deriving DecidableEq, Repr

-- key "{crate_name}:{version}" of the versions tree
def vmVersionKey (crateName version : String) : String :=
  crateName ++ ":" ++ version

-- VersionManager::get_latest_version (version_manager.rs:105-139)
def get_latest_version (s : VMState) (now : Nat) (crateName : String) :
    Option String × VMState :=
  match lookupKV crateName s.memoryCache with
  | some version => (some version, s)
  | none =>
    match lookupKV crateName s.latestTree with
    | some mapping =>
      if now > mapping.expires_at then
        (none, { s with latestTree := removeKV crateName s.latestTree })
      else
        (some mapping.latest_version,
         { s with memoryCache := insertKV crateName mapping.latest_version s.memoryCache })
    | none => (none, s)

-- VersionManager::set_latest_version (version_manager.rs:142-164)
def set_latest_version (s : VMState) (now ttl : Nat) (crateName version : String) :
    VMState :=
  { s with
    latestTree := insertKV crateName ⟨crateName, version, now, now + ttl⟩ s.latestTree,
    memoryCache := insertKV crateName version s.memoryCache }

-- VersionManager::get_version_info (version_manager.rs:167-184)
def get_version_info (s : VMState) (now : Nat) (crateName version : String) :
    Option VersionInfo × VMState :=
  match lookupKV (vmVersionKey crateName version) s.versionsTree with
  | some vi =>
    if now > vi.expires_at then
      (none, { s with versionsTree := removeKV (vmVersionKey crateName version) s.versionsTree })
    else
      (some vi, s)
  | none => (none, s)

-- VersionManager::set_version_info (version_manager.rs:187-194)
def set_version_info (s : VMState) (crateName version : String) (vi : VersionInfo) :
    VMState :=
  { s with versionsTree := insertKV (vmVersionKey crateName version) vi s.versionsTree }

-- VersionManager::create_version_info (version_manager.rs:219-241)
def create_version_info (s : VMState) (now ttl : Nat)
    (crateName version downloadPath checksum : String) (yanked : Bool) : VMState :=
  set_version_info s crateName version
    ⟨version, downloadPath, checksum, yanked, now, now + ttl⟩

-- VersionManager::cleanup_expired_data (version_manager.rs:244-279): removes
-- every expired record from both trees and evicts the memory-cache entry of
-- each expired latest mapping (keyed by the crate_name stored in the record).
def cleanup_expired_data (s : VMState) (now : Nat) : Nat × VMState :=
  let keptVersions := s.versionsTree.filter (fun p => !decide (now > p.2.expires_at))
  let expiredVersions := s.versionsTree.filter (fun p => decide (now > p.2.expires_at))
  let keptLatest := s.latestTree.filter (fun p => !decide (now > p.2.expires_at))
  let expiredLatest := s.latestTree.filter (fun p => decide (now > p.2.expires_at))
  let expiredNames := expiredLatest.map (fun p => p.2.crate_name)
  (expiredVersions.length + expiredLatest.length,
   { versionsTree := keptVersions,
     latestTree := keptLatest,
     memoryCache := s.memoryCache.filter (fun p => !(expiredNames.contains p.1)) })

-- ## src/proxy.rs

inductive ProxyErr where
  | invalidRequest (msg : String)
deriving DecidableEq, Repr

-- ProxyService::parse_crates_request (proxy.rs:186-215), split into the pure
-- function on the already-split segment list and the whole-path function.
def parseParts (parts : List String) : Except ProxyErr (String × String × String) :=
  if parts.length < 6 || !(parts.getD 0 "" == "") || !(parts.getD 1 "" == "api") ||
      !(parts.getD 2 "" == "v1") || !(parts.getD 3 "" == "crates") then
    .error (.invalidRequest "无效的crates请求路径")
  else
    let crateName := parts.getD 4 ""
    let version :=
      if parts.length > 5 && !(parts.getD 5 "" == "download") then parts.getD 5 ""
      else "latest"
    let filename :=
      if parts.getLast? == some "download" then
        crateName ++ "-" ++ version ++ ".crate"
      else
        (parts.getLast?).getD "index.json"
    .ok (crateName, version, filename)

def parse_crates_request (path : String) : Except ProxyErr (String × String × String) :=
  parseParts (splitPath path)

inductive Method where
  | GET
  | other
deriving DecidableEq, Repr

inductive RouteStep where
  | reject (status : Nat) (body : String)
  | proceed (crateName version filename : String)
deriving DecidableEq, Repr

-- ProxyService::handle_request (proxy.rs:333-359) up to the dispatch into
-- handle_crates_request: non-GET → 405, unparsable path → 400.
def handleRequestStep (m : Method) (path : String) : RouteStep :=
  match m with
  | .GET =>
    match parse_crates_request path with
    | .ok (n, v, f) => .proceed n v f
    | .error _ => .reject 400 "Bad Request"
  | .other => .reject 405 "Method Not Allowed"

-- 500 response bodies of handle_crates_request: the version-list failure
-- branch (proxy.rs:277-282) and the download failure branch (proxy.rs:324-329).
def versionListFailureBody (e : ApiError) : String :=
  "获取版本列表失败: " ++ e.display

def downloadFailureBody (e : ApiError) : String :=
  "下载失败: " ++ e.display

-- "the upstream body occurs verbatim inside the response" as list infix
def containsStr (s sub : String) : Prop :=
  ∃ p q : List Char, s.data = p ++ sub.data ++ q

-- Iterator::max_by(|a, b| a.num.cmp(&b.num)) (proxy.rs:133-136): fold that
-- keeps the accumulator only when it compares strictly greater, so later
-- maximal elements win ties.
def maxByNumStep (acc x : CrateVersion) : CrateVersion :=
  if strLtRust x.num acc.num then acc else x

def maxByNum : List CrateVersion → Option CrateVersion
  | [] => none
  | x :: xs => some (xs.foldl maxByNumStep x)

-- ProxyService::get_and_cache_all_versions (proxy.rs:120-161); the fetched
-- version list is a parameter (the RegistryClient response).
def get_and_cache_all_versions (s : VMState) (now ttl : Nat) (crateName : String)
    (versions : List CrateVersion) : VMState :=
  if versions.isEmpty then s
  else
    let latest := (maxByNum (versions.filter (fun v => !v.yanked))).map (fun v => v.num)
    let s1 :=
      match latest with
      | some l => set_latest_version s now ttl crateName l
      | none => s
    versions.foldl
      (fun st v => create_version_info st now ttl crateName v.num v.dl_path v.checksum v.yanked)
      s1

-- ProxyService::get_latest_version (proxy.rs:164-184)
def proxy_get_latest_version (s : VMState) (now ttl : Nat) (crateName : String)
    (apiVersions : List CrateVersion) : Except String String × VMState :=
  match get_latest_version s now crateName with
  | (some v, s1) => (.ok v, s1)
  | (none, s1) =>
    let s2 := get_and_cache_all_versions s1 now ttl crateName apiVersions
    match get_latest_version s2 now crateName with
    | (some v, s3) => (.ok v, s3)
    | (none, s3) => (.error ("无法获取包 " ++ crateName ++ " 的版本信息"), s3)

-- ## Spec-side definitions (stated from the spec text, for comparison)

-- §4.3 selectVersion rules, restated from the spec sentence by sentence.
def specRuleMatches (sel : String) (v : CrateVersion) : Bool :=
  v.num == sel ||
  strStarts v.num sel ||
  (dotCount sel == 0 && strStarts v.num (sel ++ ".")) ||
  (dotCount sel == 1 && strStarts v.num (sel ++ "."))

-- The simpler function of claim C10: first non-yanked literal-prefix match.
def simpleSelect (versions : List CrateVersion) (sel : String) : Option CrateVersion :=
  versions.find? (fun v => !v.yanked && strStarts v.num sel)

-- §8 demo version list
def demoVersions : List CrateVersion :=
  [⟨"1.0.0", "", "", false⟩, ⟨"1.1.0", "", "", false⟩, ⟨"2.0.0", "", "", false⟩]

-- ## Helper lemmas: association lists

theorem lookupKV_removeKV_self {β : Type} (k : String) (l : List (String × β)) :
    lookupKV k (removeKV k l) = none := by
  induction l with
  | nil => rfl
  | cons p rest ih =>
    obtain ⟨a, b⟩ := p
    by_cases h : (a == k) = true
    · simpa [removeKV, List.filter_cons, h] using ih
    · simp only [Bool.not_eq_true] at h
      simp [removeKV, List.filter_cons, h, lookupKV] at ih ⊢
      exact ih

theorem lookupKV_insert_self {β : Type} (k : String) (v : β) (l : List (String × β)) :
    lookupKV k (insertKV k v l) = some v := by
  simp [insertKV, lookupKV]

theorem lookupKV_removeKV_ne {β : Type} {a k : String} (h : a ≠ k)
    (l : List (String × β)) : lookupKV a (removeKV k l) = lookupKV a l := by
  induction l with
  | nil => rfl
  | cons p rest ih =>
    obtain ⟨x, b⟩ := p
    by_cases hx : (x == k) = true
    · have hxk : x = k := eq_of_beq hx
      have hxa : (x == a) = false := by
        apply beq_eq_false_iff_ne.mpr
        rw [hxk]
        exact fun hh => h hh.symm
      simp [removeKV, List.filter_cons, hx, lookupKV, hxa] at ih ⊢
      exact ih
    · simp only [Bool.not_eq_true] at hx
      by_cases hxa : (x == a) = true
      · simp [removeKV, List.filter_cons, hx, lookupKV, hxa]
      · simp only [Bool.not_eq_true] at hxa
        simp [removeKV, List.filter_cons, hx, lookupKV, hxa] at ih ⊢
        exact ih

theorem lookupKV_insert_ne {β : Type} {a k : String} (h : a ≠ k) (v : β)
    (l : List (String × β)) : lookupKV a (insertKV k v l) = lookupKV a l := by
  have hk : (k == a) = false := beq_eq_false_iff_ne.mpr (fun hh => h hh.symm)
  simp [insertKV, lookupKV, hk]
  exact lookupKV_removeKV_ne h l

theorem lookupKV_filter {β : Type} {p : String × β → Bool} :
    ∀ (l : List (String × β)) (k : String) (x : β),
      lookupKV k (l.filter p) = some x → p (k, x) = true := by
  intro l
  induction l with
  | nil => intro k x h; simp [lookupKV] at h
  | cons q rest ih =>
    intro k x h
    obtain ⟨a, b⟩ := q
    by_cases hp : p (a, b) = true
    · rw [List.filter_cons, if_pos hp] at h
      by_cases hak : (a == k) = true
      · have ha : a = k := eq_of_beq hak
        simp [lookupKV, hak] at h
        rw [← ha, ← h]
        exact hp
      · simp only [Bool.not_eq_true] at hak
        simp [lookupKV, hak] at h
        exact ih k x h
    · simp only [Bool.not_eq_true] at hp
      rw [List.filter_cons, if_neg (by simp [hp])] at h
      exact ih k x h

theorem lookupKV_mem {β : Type} :
    ∀ (l : List (String × β)) (k : String) (v : β),
      lookupKV k l = some v → (k, v) ∈ l := by
  intro l
  induction l with
  | nil => intro k v h; simp [lookupKV] at h
  | cons q rest ih =>
    intro k v h
    obtain ⟨a, b⟩ := q
    by_cases hak : (a == k) = true
    · have ha : a = k := eq_of_beq hak
      simp [lookupKV, hak] at h
      rw [← ha, ← h]
      exact List.mem_cons_self _ _
    · simp only [Bool.not_eq_true] at hak
      simp [lookupKV, hak] at h
      exact List.mem_cons_of_mem _ (ih k v h)

theorem lookupKV_cons_ne {β : Type} {a k : String} (h : (a == k) = false) (b : β)
    (rest : List (String × β)) : lookupKV k ((a, b) :: rest) = lookupKV k rest := by
  simp [lookupKV, h]

theorem lookupKV_filterNotMem {β : Type} (names : List String) :
    ∀ (l : List (String × β)) (k : String), k ∈ names →
      lookupKV k (l.filter (fun p => !(names.contains p.1))) = none := by
  intro l
  induction l with
  | nil => intro k _; rfl
  | cons q rest ih =>
    intro k hk
    obtain ⟨a, b⟩ := q
    by_cases hc : names.contains a = true
    · have hcond : ¬ (((fun p : String × β => !(names.contains p.1)) (a, b)) = true) := by
        show ¬ ((!(names.contains a)) = true)
        rw [hc]
        decide
      rw [List.filter_cons, if_neg hcond]
      exact ih k hk
    · have hcf : names.contains a = false := by
        cases h2 : names.contains a
        · rfl
        · exact absurd h2 hc
      have hak : (a == k) = false := by
        apply beq_eq_false_iff_ne.mpr
        intro hh
        have hck : names.contains k = true := List.elem_iff.mpr hk
        rw [hh, hck] at hcf
        exact absurd hcf (by decide)
      have hcond : (((fun p : String × β => !(names.contains p.1)) (a, b)) = true) := by
        show (!(names.contains a)) = true
        rw [hcf]
        decide
      rw [List.filter_cons, if_pos hcond, lookupKV_cons_ne hak]
      exact ih k hk

-- ## Helper lemmas: string predicates

theorem pfxOf_refl : ∀ l : List Char, pfxOf l l = true := by
  intro l
  induction l with
  | nil => rfl
  | cons a as ih => simp [pfxOf, ih]

theorem pfxOf_append : ∀ (a b l : List Char), pfxOf (a ++ b) l = true → pfxOf a l = true := by
  intro a
  induction a with
  | nil => intro b l _; rfl
  | cons x xs ih =>
    intro b l h
    cases l with
    | nil => simp [pfxOf] at h
    | cons y ys =>
      simp only [List.cons_append, pfxOf, Bool.and_eq_true] at h ⊢
      exact ⟨h.1, ih b ys h.2⟩

theorem strStarts_self (s : String) : strStarts s s = true :=
  pfxOf_refl s.data

theorem strStarts_of_append {s p q : String} (h : strStarts s (p ++ q) = true) :
    strStarts s p = true := by
  unfold strStarts at h ⊢
  rw [String.data_append] at h
  exact pfxOf_append p.data q.data s.data h

theorem strStarts_of_eq {s p : String} (h : (s == p) = true) : strStarts s p = true := by
  rw [eq_of_beq h]
  exact strStarts_self p

-- ## Helper lemmas: the lexicographic comparison numLt

theorem numLt_irrefl : ∀ l : List Char, numLt l l = false := by
  intro l
  induction l with
  | nil => rfl
  | cons a as ih => simp [numLt, ih]

theorem numLt_trans : ∀ a b c : List Char,
    numLt a b = true → numLt b c = true → numLt a c = true := by
  intro a
  induction a with
  | nil =>
    intro b c hab hbc
    cases b with
    | nil => simp [numLt] at hab
    | cons y ys =>
      cases c with
      | nil => simp [numLt] at hbc
      | cons z zs => simp [numLt]
  | cons x xs ih =>
    intro b c hab hbc
    cases b with
    | nil => simp [numLt] at hab
    | cons y ys =>
      cases c with
      | nil => simp [numLt] at hbc
      | cons z zs =>
        simp only [numLt] at hab hbc ⊢
        by_cases h1 : x.toNat < y.toNat
        · by_cases h2 : y.toNat < z.toNat
          · rw [if_pos (Nat.lt_trans h1 h2)]
          · rw [if_neg h2] at hbc
            by_cases h3 : z.toNat < y.toNat
            · rw [if_pos h3] at hbc
              exact absurd hbc (by decide)
            · have hyz : y.toNat = z.toNat :=
                Nat.le_antisymm (Nat.le_of_not_lt h3) (Nat.le_of_not_lt h2)
              rw [if_pos (hyz ▸ h1)]
        · rw [if_neg h1] at hab
          by_cases h4 : y.toNat < x.toNat
          · rw [if_pos h4] at hab
            exact absurd hab (by decide)
          · rw [if_neg h4] at hab
            have hxy : x.toNat = y.toNat :=
              Nat.le_antisymm (Nat.le_of_not_lt h4) (Nat.le_of_not_lt h1)
            by_cases h2 : y.toNat < z.toNat
            · rw [if_pos (hxy ▸ h2)]
            · rw [if_neg h2] at hbc
              by_cases h3 : z.toNat < y.toNat
              · rw [if_pos h3] at hbc
                exact absurd hbc (by decide)
              · rw [if_neg h3] at hbc
                have hyz : y.toNat = z.toNat :=
                  Nat.le_antisymm (Nat.le_of_not_lt h3) (Nat.le_of_not_lt h2)
                have hxz : x.toNat = z.toNat := hxy.trans hyz
                have n1 : ¬ x.toNat < z.toNat := by rw [hxz]; exact Nat.lt_irrefl _
                have n2 : ¬ z.toNat < x.toNat := by rw [hxz]; exact Nat.lt_irrefl _
                rw [if_neg n1, if_neg n2]
                exact ih ys zs hab hbc

theorem charToNatInj {x y : Char} (h : x.toNat = y.toNat) : x = y := by
  have := Char.ofNat_toNat x
  rw [h, Char.ofNat_toNat y] at this
  exact this.symm

theorem numLt_cases : ∀ a b : List Char, numLt a b = false → a = b ∨ numLt b a = true := by
  intro a
  induction a with
  | nil =>
    intro b h
    cases b with
    | nil => exact Or.inl rfl
    | cons y ys => simp [numLt] at h
  | cons x xs ih =>
    intro b h
    cases b with
    | nil => exact Or.inr (by simp [numLt])
    | cons y ys =>
      simp only [numLt] at h ⊢
      by_cases h1 : x.toNat < y.toNat
      · rw [if_pos h1] at h
        exact absurd h (by decide)
      · rw [if_neg h1] at h
        by_cases h2 : y.toNat < x.toNat
        · rw [if_pos h2] at h
          exact Or.inr (by rw [if_pos h2])
        · rw [if_neg h2] at h
          have hxy : x = y := charToNatInj
            (Nat.le_antisymm (Nat.le_of_not_lt h2) (Nat.le_of_not_lt h1))
          rcases ih ys h with heq | hlt
          · exact Or.inl (by rw [hxy, heq])
          · refine Or.inr ?_
            rw [if_neg h2, if_neg h1]
            exact hlt

theorem numLt_le_trans {a b c : List Char} (h1 : numLt b a = false)
    (h2 : numLt c b = false) : numLt c a = false := by
  cases hca : numLt c a
  · rfl
  · exfalso
    rcases numLt_cases c b h2 with heq | hbc
    · rw [heq] at hca
      rw [hca] at h1
      exact absurd h1 (by decide)
    · have := numLt_trans b c a hbc hca
      rw [this] at h1
      exact absurd h1 (by decide)

theorem numLt_asymm {a b : List Char} (h : numLt a b = true) : numLt b a = false := by
  cases hba : numLt b a
  · rfl
  · have := numLt_trans a b a h hba
    rw [numLt_irrefl] at this
    exact absurd this (by decide)

-- ## Helper lemmas: find? congruence

theorem findExt {α : Type} (p q : α → Bool) (h : ∀ a, p a = q a) :
    ∀ l : List α, l.find? p = l.find? q := by
  intro l
  induction l with
  | nil => rfl
  | cons a l ih =>
    cases hq : q a with
    | true => simp [List.find?, h a, hq]
    | false => simp [List.find?, h a, hq, ih]

-- ## Helper lemmas: the max_by fold of get_and_cache_all_versions

theorem step_ge_x (acc x : CrateVersion) :
    numLt (maxByNumStep acc x).num.data x.num.data = false := by
  unfold maxByNumStep
  cases h : strLtRust x.num acc.num
  · simp only [Bool.false_eq_true, if_neg]
    exact numLt_irrefl _
  · simp only [if_pos]
    exact numLt_asymm (by unfold strLtRust at h; exact h)

theorem step_ge_acc (acc x : CrateVersion) :
    numLt (maxByNumStep acc x).num.data acc.num.data = false := by
  unfold maxByNumStep
  cases h : strLtRust x.num acc.num
  · simp only [Bool.false_eq_true, if_neg]
    unfold strLtRust at h
    exact h
  · simp only [if_pos]
    exact numLt_irrefl _

theorem step_preserve {acc x y : CrateVersion}
    (h : numLt acc.num.data y.num.data = false) :
    numLt (maxByNumStep acc x).num.data y.num.data = false := by
  unfold maxByNumStep
  cases hx : strLtRust x.num acc.num
  · simp only [Bool.false_eq_true, if_neg]
    unfold strLtRust at hx
    exact numLt_le_trans h hx
  · simp only [if_pos]
    exact h

theorem foldl_max_ge_acc :
    ∀ (xs : List CrateVersion) (acc : CrateVersion),
      numLt ((xs.foldl maxByNumStep acc).num.data) acc.num.data = false := by
  intro xs
  induction xs with
  | nil => intro acc; exact numLt_irrefl _
  | cons x xs ih =>
    intro acc
    have h1 := ih (maxByNumStep acc x)
    have h2 := step_ge_acc acc x
    simpa [List.foldl] using numLt_le_trans h2 h1

theorem foldl_max_ge_mem :
    ∀ (xs : List CrateVersion) (acc y : CrateVersion), y ∈ xs →
      numLt ((xs.foldl maxByNumStep acc).num.data) y.num.data = false := by
  intro xs
  induction xs with
  | nil => intro acc y h; simp at h
  | cons x xs ih =>
    intro acc y hy
    rcases List.mem_cons.mp hy with rfl | hmem
    · simpa [List.foldl] using
        numLt_le_trans (step_ge_x acc y) (foldl_max_ge_acc xs (maxByNumStep acc y))
    · simpa [List.foldl] using ih (maxByNumStep acc x) y hmem

theorem step_eq_of_lt {acc x : CrateVersion} (hc : strLtRust x.num acc.num = true) :
    maxByNumStep acc x = acc := by
  unfold maxByNumStep
  rw [hc]
  simp

theorem step_eq_of_ge {acc x : CrateVersion} (hc : strLtRust x.num acc.num = false) :
    maxByNumStep acc x = x := by
  unfold maxByNumStep
  rw [hc]
  simp

theorem foldl_max_mem :
    ∀ (xs : List CrateVersion) (acc : CrateVersion),
      xs.foldl maxByNumStep acc = acc ∨ xs.foldl maxByNumStep acc ∈ xs := by
  intro xs
  induction xs with
  | nil => intro acc; exact Or.inl rfl
  | cons x xs ih =>
    intro acc
    have hfold : (x :: xs).foldl maxByNumStep acc = xs.foldl maxByNumStep (maxByNumStep acc x) :=
      List.foldl_cons _ _
    rcases ih (maxByNumStep acc x) with h | h
    · cases hc : strLtRust x.num acc.num
      · rw [step_eq_of_ge hc] at h
        refine Or.inr ?_
        rw [hfold, step_eq_of_ge hc, h]
        exact List.mem_cons_self _ _
      · rw [step_eq_of_lt hc] at h
        refine Or.inl ?_
        rw [hfold, step_eq_of_lt hc]
        exact h
    · refine Or.inr ?_
      rw [hfold]
      exact List.mem_cons_of_mem x h

theorem maxByNum_spec :
    ∀ (l : List CrateVersion) (m : CrateVersion), maxByNum l = some m →
      m ∈ l ∧ ∀ y ∈ l, numLt m.num.data y.num.data = false := by
  intro l m h
  cases l with
  | nil => simp [maxByNum] at h
  | cons x xs =>
    simp only [maxByNum, Option.some.injEq] at h
    subst h
    constructor
    · rcases foldl_max_mem xs x with h | h
      · rw [h]
        exact List.mem_cons_self _ _
      · exact List.mem_cons_of_mem _ h
    · intro y hy
      rcases List.mem_cons.mp hy with rfl | hmem
      · exact foldl_max_ge_acc _ _
      · exact foldl_max_ge_mem _ _ y hmem

-- ## Helper lemmas: the create_version_info fold of get_and_cache_all_versions

theorem foldCreate_memoryCache (now ttl : Nat) (n : String) :
    ∀ (vs : List CrateVersion) (st : VMState),
      (vs.foldl (fun st v =>
          create_version_info st now ttl n v.num v.dl_path v.checksum v.yanked) st).memoryCache
        = st.memoryCache := by
  intro vs
  induction vs with
  | nil => intro st; rfl
  | cons v vs ih =>
    intro st
    rw [List.foldl_cons, ih]
    rfl

theorem foldCreate_latestTree (now ttl : Nat) (n : String) :
    ∀ (vs : List CrateVersion) (st : VMState),
      (vs.foldl (fun st v =>
          create_version_info st now ttl n v.num v.dl_path v.checksum v.yanked) st).latestTree
        = st.latestTree := by
  intro vs
  induction vs with
  | nil => intro st; rfl
  | cons v vs ih =>
    intro st
    rw [List.foldl_cons, ih]
    rfl

theorem vmKeyInj {n a b : String} (h : vmVersionKey n a = vmVersionKey n b) : a = b := by
  unfold vmVersionKey at h
  have hd : ((n ++ ":") ++ a).data = ((n ++ ":") ++ b).data := by rw [h]
  rw [String.data_append, String.data_append] at hd
  exact String.ext (List.append_cancel_left hd)

theorem createPreserve {st : VMState} {now ttl : Nat} {n vnum : String}
    (w : CrateVersion)
    (h : ∃ r, lookupKV (vmVersionKey n vnum) st.versionsTree = some r ∧ r.version = vnum) :
    ∃ r, lookupKV (vmVersionKey n vnum)
        (create_version_info st now ttl n w.num w.dl_path w.checksum w.yanked).versionsTree
          = some r ∧ r.version = vnum := by
  by_cases hk : vmVersionKey n w.num = vmVersionKey n vnum
  · refine ⟨⟨w.num, w.dl_path, w.checksum, w.yanked, now, now + ttl⟩, ?_, ?_⟩
    · show lookupKV (vmVersionKey n vnum)
        (insertKV (vmVersionKey n w.num) _ st.versionsTree) = _
      rw [hk]
      exact lookupKV_insert_self _ _ _
    · exact vmKeyInj hk
  · obtain ⟨r, hr, hv⟩ := h
    refine ⟨r, ?_, hv⟩
    show lookupKV (vmVersionKey n vnum)
      (insertKV (vmVersionKey n w.num) _ st.versionsTree) = some r
    rw [lookupKV_insert_ne (fun hh => hk hh.symm) _ _]
    exact hr

theorem foldCreatePreserve (now ttl : Nat) (n vnum : String) :
    ∀ (vs : List CrateVersion) (st : VMState),
      (∃ r, lookupKV (vmVersionKey n vnum) st.versionsTree = some r ∧ r.version = vnum) →
      ∃ r, lookupKV (vmVersionKey n vnum)
          ((vs.foldl (fun st v =>
              create_version_info st now ttl n v.num v.dl_path v.checksum v.yanked) st).versionsTree)
            = some r ∧ r.version = vnum := by
  intro vs
  induction vs with
  | nil => intro st h; exact h
  | cons w vs ih =>
    intro st h
    rw [List.foldl_cons]
    exact ih _ (createPreserve w h)

theorem foldCreatePersists (now ttl : Nat) (n : String) :
    ∀ (vs : List CrateVersion) (st : VMState) (v : CrateVersion), v ∈ vs →
      ∃ r, lookupKV (vmVersionKey n v.num)
          ((vs.foldl (fun st v =>
              create_version_info st now ttl n v.num v.dl_path v.checksum v.yanked) st).versionsTree)
            = some r ∧ r.version = v.num := by
  intro vs
  induction vs with
  | nil => intro st v h; simp at h
  | cons w vs ih =>
    intro st v hv
    rcases List.mem_cons.mp hv with heq | hmem
    · rw [List.foldl_cons]
      apply foldCreatePreserve
      refine ⟨⟨w.num, w.dl_path, w.checksum, w.yanked, now, now + ttl⟩, ?_, ?_⟩
      · rw [heq]
        exact lookupKV_insert_self _ _ _
      · rw [heq]
    · rw [List.foldl_cons]
      exact ih _ v hmem

-- ## Pointwise equality of the four selector rules and the plain literal
-- prefix test (rules 1, 3 and 4 are each subsumed by rule 2)

theorem rulePointwise (sel : String) (v : CrateVersion) :
    (!v.yanked && (
      v.num == sel ||
      strStarts v.num sel ||
      (dotCount sel == 0 && strStarts v.num (sel ++ ".")) ||
      (dotCount sel == 1 && strStarts v.num (sel ++ ".")))) =
    (!v.yanked && strStarts v.num sel) := by
  cases hs : strStarts v.num sel
  · have hA : (v.num == sel) = false := by
      cases hA2 : v.num == sel
      · rfl
      · have := strStarts_of_eq hA2
        rw [hs] at this
        exact absurd this (by decide)
    have hC : strStarts v.num (sel ++ ".") = false := by
      cases hC2 : strStarts v.num (sel ++ ".")
      · rfl
      · have := strStarts_of_append hC2
        rw [hs] at this
        exact absurd this (by decide)
    rw [hA, hC]
    simp
  · simp

-- ## Claim theorems

/-- Claim C1, counterexample: the claim asserts that the five-segment metadata path
is accepted and that every path outside the grammar is rejected; the parser
in fact rejects "/api/v1/crates/foo" (fewer than six slash-separated parts)
and accepts "/api/v1/crates/foo/1.2.3/extra", which is outside the stated
grammar. -/
theorem c1_parse_path_counterexample :
    parse_crates_request "/api/v1/crates/foo"
      = .error (.invalidRequest "无效的crates请求路径") ∧
    handleRequestStep .GET "/api/v1/crates/foo" = .reject 400 "Bad Request" ∧
    parse_crates_request "/api/v1/crates/foo/1.2.3/extra"
      = .ok ("foo", "1.2.3", "extra") := by
  refine ⟨?_, ?_, ?_⟩ <;> rfl

/-- Claim C1, amended: the parser accepts exactly the GET paths with at least six
slash-separated parts whose first four are "", "api", "v1", "crates".  On
"/api/v1/crates/name/ver/download" it yields (name, ver, "name-ver.crate");
on "/api/v1/crates/name/download" it yields selector "latest"; the
five-segment metadata path "/api/v1/crates/name" is rejected with
RequestError, answered as 400, as is "/not/valid"; non-GET methods are
answered 405. -/
theorem c1_parse_path_amended :
    (∀ name ver : String, ver ≠ "download" →
      parseParts ["", "api", "v1", "crates", name, ver, "download"]
        = .ok (name, ver, name ++ "-" ++ ver ++ ".crate")) ∧
    (∀ name : String,
      parseParts ["", "api", "v1", "crates", name, "download"]
        = .ok (name, "latest", name ++ "-" ++ "latest" ++ ".crate")) ∧
    (∀ name : String,
      parseParts ["", "api", "v1", "crates", name]
        = .error (.invalidRequest "无效的crates请求路径")) ∧
    parse_crates_request "/api/v1/crates/foo/1.2.3/download"
      = .ok ("foo", "1.2.3", "foo-1.2.3.crate") ∧
    parse_crates_request "/api/v1/crates/foo/download"
      = .ok ("foo", "latest", "foo-latest.crate") ∧
    handleRequestStep .GET "/not/valid" = .reject 400 "Bad Request" ∧
    handleRequestStep .other "/api/v1/crates/foo/1.2.3/download"
      = .reject 405 "Method Not Allowed" := by
  refine ⟨?_, fun name => rfl, fun name => rfl, rfl, rfl, rfl, rfl⟩
  intro name ver h
  have hv : (ver == "download") = false := beq_eq_false_iff_ne.mpr h
  simp [parseParts, hv]

/-- Claim C1 witness: the amended theorem applied at the concrete grammar examples,
with the hypothesis ver ≠ "download" discharged at ver = "1.2.3". -/
theorem c1_parse_path_witness :
    ("1.2.3" : String) ≠ "download" ∧
    parseParts ["", "api", "v1", "crates", "foo", "1.2.3", "download"]
      = .ok ("foo", "1.2.3", "foo" ++ "-" ++ "1.2.3" ++ ".crate") :=
  ⟨by decide, c1_parse_path_amended.1 "foo" "1.2.3" (by decide)⟩

/-- Claim C2: the claim (and the spec) say is_expired compares the file age
(now minus creation time) against the TTL.  The code computes
created.duration_since(UNIX_EPOCH) — the creation timestamp itself — and
compares that to the TTL, never reading the current time: a file created
at epoch second 1700000000 with TTL 3600 is reported expired the moment it
is created, while the claimed definition says it is fresh (age 0). -/
theorem c2_is_expired_code_bug :
    is_expired ⟨[("p", ⟨[], some 1700000000⟩)]⟩ 3600 "p" = true ∧
    specIsExpired 1700000000 1700000000 3600 = false ∧
    is_expired ⟨[("p", ⟨[], none⟩)]⟩ 3600 "p" = true ∧
    is_expired ⟨[]⟩ 3600 "p" = true := by
  refine ⟨?_, ?_, ?_, ?_⟩ <;> rfl

/-- Claim C3, counterexample: when get_available_versions hits a non-2xx registry
response, handle_crates_request answers 500 with a body built from
ApiError::HttpError's Display, which renders the upstream body verbatim. -/
theorem c3_no_leak_counterexample :
    versionListFailureBody (getAvailableVersionsHttpErr 403 "SECRET-UPSTREAM-BODY")
      = "获取版本列表失败: HTTP错误: 403 - SECRET-UPSTREAM-BODY" ∧
    containsStr
      (versionListFailureBody (getAvailableVersionsHttpErr 403 "SECRET-UPSTREAM-BODY"))
      "SECRET-UPSTREAM-BODY" := by
  refine ⟨by decide, "获取版本列表失败: HTTP错误: 403 - ".data, [], by decide⟩

/-- Claim C3, amended: the 500 body for a non-2xx registry response to the
version-list fetch always contains the upstream response body verbatim
(HttpError's Display prints it); only the artifact download path is
redacted — DownloadFailed is built from the status code alone, so its 500
body is independent of the upstream bytes and of the stored message. -/
theorem c3_no_leak_amended :
    (∀ (code : Nat) (body : String),
      containsStr (versionListFailureBody (getAvailableVersionsHttpErr code body)) body) ∧
    (∀ (code : Nat) (data1 data2 : List Nat), code ≠ 200 →
      download_crate_version code data1 = download_crate_version code data2) ∧
    (∀ (code : Nat) (msg1 msg2 : String),
      downloadFailureBody (.downloadFailed code msg1)
        = downloadFailureBody (.downloadFailed code msg2)) := by
  refine ⟨?_, ?_, fun code msg1 msg2 => rfl⟩
  · intro code body
    refine ⟨"获取版本列表失败: ".data ++ "HTTP错误: ".data ++ (toString code).data
      ++ " - ".data, [], ?_⟩
    show (versionListFailureBody (getAvailableVersionsHttpErr code body)).data = _
    simp only [versionListFailureBody, getAvailableVersionsHttpErr, ApiError.display]
    simp [String.data_append, List.append_assoc]
  · intro code data1 data2 h
    unfold download_crate_version
    rw [if_pos h, if_pos h]

/-- Claim C3 witness: the amended theorem applied at status 404 with two distinct
upstream payloads, and at status 500 with body "BODY". -/
theorem c3_no_leak_witness :
    (404 : Nat) ≠ 200 ∧
    download_crate_version 404 [1, 2, 3] = download_crate_version 404 [9] ∧
    containsStr (versionListFailureBody (getAvailableVersionsHttpErr 500 "BODY")) "BODY" :=
  ⟨by decide, c3_no_leak_amended.2.1 404 [1, 2, 3] [9] (by decide),
    c3_no_leak_amended.1 500 "BODY"⟩

/-- Claim C5: select_version_for_range returns the first non-yanked version, in the
collection's given order, matching the selector under the four rules (exact
equality; literal prefix; major-only dotted prefix for a dotless selector;
major.minor dotted prefix for a one-dot selector); on
["1.0.0","1.1.0","2.0.0"]: "1.0" yields "1.0.0", "1" yields "1.0.0",
"1.1.0" yields "1.1.0", and "9.9" yields no match. -/
theorem c5_selector_rules :
    (∀ (vs : List CrateVersion) (sel : String),
      select_version_for_range vs sel
        = vs.find? (fun v => !v.yanked && specRuleMatches sel v)) ∧
    select_version_for_range demoVersions "1.0" = some ⟨"1.0.0", "", "", false⟩ ∧
    select_version_for_range demoVersions "1" = some ⟨"1.0.0", "", "", false⟩ ∧
    select_version_for_range demoVersions "1.1.0" = some ⟨"1.1.0", "", "", false⟩ ∧
    select_version_for_range demoVersions "9.9" = none := by
  refine ⟨fun vs sel => rfl, ?_, ?_, ?_, ?_⟩ <;> rfl

/-- Claim C7: writing content for a key with save_to_cache and then reading the
same key with get_cached_content succeeds and returns exactly the bytes
written. -/
theorem c7_cache_round_trip (fs : CacheFs) (root n v f : String)
    (content : List Nat) (now : Nat) :
    get_cached_content (save_to_cache fs root n v f content now) root n v f
      = .ok content := by
  unfold get_cached_content save_to_cache is_cached
  rw [lookupKV_insert_self]
  rfl

/-- Claim C8: is_cached is true iff the cache file exists, with no TTL
consultation: any present file — including one is_expired reports stale for
any TTL — is reported cached and served by get_cached_content. -/
theorem c8_is_cached_presence (fs : CacheFs) (root n v f : String) :
    (is_cached fs root n v f = true ↔
      ∃ file, lookupKV (get_cache_path root n v f) fs.files = some file) ∧
    (∀ (file : FsFile) (ttl : Nat),
      lookupKV (get_cache_path root n v f) fs.files = some file →
      is_expired fs ttl (get_cache_path root n v f) = true →
      is_cached fs root n v f = true ∧
      get_cached_content fs root n v f = .ok file.content) := by
  constructor
  · unfold is_cached
    cases h : lookupKV (get_cache_path root n v f) fs.files <;> simp [h]
  · intro file ttl hl _
    have hc : is_cached fs root n v f = true := by
      unfold is_cached
      rw [hl]
      rfl
    refine ⟨hc, ?_⟩
    unfold get_cached_content
    rw [if_pos hc, hl]

/-- Claim C8 witness: a cache holding one file created at epoch second 50 with
TTL 10 — stale for is_expired — is still reported cached and read back. -/
theorem c8_is_cached_presence_witness :
    is_cached ⟨[("r/a/1.0.0/a.crate", ⟨[7, 8], some 50⟩)]⟩ "r" "a" "1.0.0" "a.crate" = true ∧
    get_cached_content ⟨[("r/a/1.0.0/a.crate", ⟨[7, 8], some 50⟩)]⟩ "r" "a" "1.0.0" "a.crate"
      = .ok [7, 8] :=
  (c8_is_cached_presence ⟨[("r/a/1.0.0/a.crate", ⟨[7, 8], some 50⟩)]⟩
    "r" "a" "1.0.0" "a.crate").2 ⟨[7, 8], some 50⟩ 10 (by decide) (by decide)

/-- Claim C10: select_version_for_range is extensionally equal to the simple
function returning the first non-yanked version whose string starts with the
selector as a literal prefix — rules 1, 3 and 4 are redundant; in particular
the dotless selector "1" matches "10.0.0". -/
theorem c10_select_equiv_simple :
    (∀ (vs : List CrateVersion) (sel : String),
      select_version_for_range vs sel = simpleSelect vs sel) ∧
    select_version_for_range [⟨"10.0.0", "", "", false⟩] "1"
      = some ⟨"10.0.0", "", "", false⟩ := by
  constructor
  · intro vs sel
    unfold select_version_for_range simpleSelect
    exact findExt _ _ (fun v => rulePointwise sel v) vs
  · rfl

/-- Claim C4: for selector "latest" the router first consults
VersionManager::get_latest_version and returns its hit unchanged; on a miss
it fetches the version list, picks the maximum non-yanked version under
lexicographic string comparison (so "2.0.0" beats "10.0.0"), persists the
latest pointer and a record for every fetched version, and re-reads the
(now populated) index to produce the resolved version. -/
theorem c4_latest_resolution :
    (∀ (s : VMState) (now ttl : Nat) (n : String) (vs : List CrateVersion)
        (v : String) (s1 : VMState),
      get_latest_version s now n = (some v, s1) →
      proxy_get_latest_version s now ttl n vs = (.ok v, s1)) ∧
    (∀ (s : VMState) (now ttl : Nat) (n : String) (vs : List CrateVersion)
        (m : CrateVersion),
      lookupKV n s.memoryCache = none →
      lookupKV n s.latestTree = none →
      maxByNum (vs.filter (fun v => !v.yanked)) = some m →
      m ∈ vs ∧ m.yanked = false ∧
      (∀ v ∈ vs, v.yanked = false → numLt m.num.data v.num.data = false) ∧
      (proxy_get_latest_version s now ttl n vs).1 = .ok m.num ∧
      lookupKV n ((proxy_get_latest_version s now ttl n vs).2).memoryCache = some m.num ∧
      (∃ mp, lookupKV n ((proxy_get_latest_version s now ttl n vs).2).latestTree = some mp ∧
        mp.latest_version = m.num) ∧
      (∀ v ∈ vs, ∃ r,
        lookupKV (vmVersionKey n v.num)
          ((proxy_get_latest_version s now ttl n vs).2).versionsTree = some r ∧
        r.version = v.num)) ∧
    (proxy_get_latest_version ⟨[], [], []⟩ 0 100 "foo"
        [⟨"10.0.0", "", "", false⟩, ⟨"2.0.0", "", "", false⟩]).1 = .ok "2.0.0" := by
  refine ⟨?_, ?_, ?_⟩
  · intro s now ttl n vs v s1 h
    simp only [proxy_get_latest_version, h]
  · intro s now ttl n vs m hmem0 hlat0 hmax
    obtain ⟨hm_mem_f, hge_f⟩ := maxByNum_spec _ m hmax
    have hm_mem : m ∈ vs := (List.mem_filter.mp hm_mem_f).1
    have hm_y : (!m.yanked) = true := (List.mem_filter.mp hm_mem_f).2
    have hm_yank : m.yanked = false := by
      cases hy2 : m.yanked
      · rfl
      · rw [hy2] at hm_y
        exact absurd hm_y (by decide)
    have hge : ∀ v ∈ vs, v.yanked = false → numLt m.num.data v.num.data = false := by
      intro v hv hvy
      apply hge_f
      rw [List.mem_filter]
      refine ⟨hv, ?_⟩
      rw [hvy]
      rfl
    have hne : vs ≠ [] := List.ne_nil_of_mem hm_mem
    have hvs_ne : vs.isEmpty = false := by
      cases h2 : vs.isEmpty
      · rfl
      · exact absurd (List.isEmpty_iff.mp h2) hne
    have hfirst : get_latest_version s now n = (none, s) := by
      unfold get_latest_version
      rw [hmem0, hlat0]
    have hcache : get_and_cache_all_versions s now ttl n vs
        = vs.foldl
            (fun st v => create_version_info st now ttl n v.num v.dl_path v.checksum v.yanked)
            (set_latest_version s now ttl n m.num) := by
      simp only [get_and_cache_all_versions, hvs_ne, Bool.false_eq_true, if_false,
        hmax, Option.map_some']
    have hmem2 : lookupKV n
        ((vs.foldl
          (fun st v => create_version_info st now ttl n v.num v.dl_path v.checksum v.yanked)
          (set_latest_version s now ttl n m.num)).memoryCache) = some m.num := by
      rw [foldCreate_memoryCache now ttl n vs (set_latest_version s now ttl n m.num)]
      exact lookupKV_insert_self _ _ _
    have hsecond : get_latest_version
        (vs.foldl
          (fun st v => create_version_info st now ttl n v.num v.dl_path v.checksum v.yanked)
          (set_latest_version s now ttl n m.num)) now n
        = (some m.num,
           vs.foldl
            (fun st v => create_version_info st now ttl n v.num v.dl_path v.checksum v.yanked)
            (set_latest_version s now ttl n m.num)) := by
      unfold get_latest_version
      rw [hmem2]
    have hproxy : proxy_get_latest_version s now ttl n vs
        = (.ok m.num,
           vs.foldl
            (fun st v => create_version_info st now ttl n v.num v.dl_path v.checksum v.yanked)
            (set_latest_version s now ttl n m.num)) := by
      simp only [proxy_get_latest_version, hfirst, hcache, hsecond]
    refine ⟨hm_mem, hm_yank, hge, ?_, ?_, ?_, ?_⟩
    · rw [hproxy]
    · rw [hproxy]
      exact hmem2
    · rw [hproxy]
      refine ⟨⟨n, m.num, now, now + ttl⟩, ?_, rfl⟩
      show lookupKV n
        ((vs.foldl
          (fun st v => create_version_info st now ttl n v.num v.dl_path v.checksum v.yanked)
          (set_latest_version s now ttl n m.num)).latestTree) = _
      rw [foldCreate_latestTree now ttl n vs (set_latest_version s now ttl n m.num)]
      exact lookupKV_insert_self _ _ _
    · intro v hv
      rw [hproxy]
      exact foldCreatePersists now ttl n vs (set_latest_version s now ttl n m.num) v hv
  · rfl

/-- Claim C4 witness: on the empty index with fetched versions "10.0.0" and
"2.0.0", the hypotheses of the miss branch hold and the resolved latest
version is the lexicographic maximum "2.0.0". -/
theorem c4_latest_resolution_witness :
    (proxy_get_latest_version ⟨[], [], []⟩ 7 100 "bar"
        [⟨"10.0.0", "", "", false⟩, ⟨"2.0.0", "", "", false⟩]).1
      = .ok (CrateVersion.num ⟨"2.0.0", "", "", false⟩) :=
  ((c4_latest_resolution.2.1 ⟨[], [], []⟩ 7 100 "bar"
      [⟨"10.0.0", "", "", false⟩, ⟨"2.0.0", "", "", false⟩]
      ⟨"2.0.0", "", "", false⟩ rfl rfl (by decide)).2.2.2).1

/-- Claim C6: TTL invariant: a stored VersionRecord whose expires_at lies in the
past is reported Absent by get_version_info and that access deletes it from
the durable versions table; after cleanup_expired_data no record in the
table is expired. -/
theorem c6_ttl_invariant :
    (∀ (s : VMState) (now : Nat) (n v : String) (vi : VersionInfo),
      lookupKV (vmVersionKey n v) s.versionsTree = some vi →
      now > vi.expires_at →
      (get_version_info s now n v).1 = none ∧
      lookupKV (vmVersionKey n v) ((get_version_info s now n v).2).versionsTree = none) ∧
    (∀ (s : VMState) (now : Nat) (k : String) (vi : VersionInfo),
      lookupKV k ((cleanup_expired_data s now).2).versionsTree = some vi →
      ¬ now > vi.expires_at) := by
  constructor
  · intro s now n v vi hl hexp
    simp only [get_version_info, hl]
    rw [if_pos hexp]
    exact ⟨rfl, lookupKV_removeKV_self _ _⟩
  · intro s now k vi hl
    have hl2 : lookupKV k (s.versionsTree.filter (fun p => !decide (now > p.2.expires_at)))
        = some vi := hl
    have hp := lookupKV_filter _ k vi hl2
    intro hgt
    simp at hp
    exact absurd hgt (by omega)

/-- Claim C6 witness: a record with expires_at 10 read at now = 20 is Absent and
deleted. -/
theorem c6_ttl_invariant_witness :
    (get_version_info ⟨[("foo:1.0.0", ⟨"1.0.0", "", "", false, 0, 10⟩)], [], []⟩
        20 "foo" "1.0.0").1 = none ∧
    lookupKV (vmVersionKey "foo" "1.0.0")
      ((get_version_info ⟨[("foo:1.0.0", ⟨"1.0.0", "", "", false, 0, 10⟩)], [], []⟩
          20 "foo" "1.0.0").2).versionsTree = none :=
  c6_ttl_invariant.1 ⟨[("foo:1.0.0", ⟨"1.0.0", "", "", false, 0, 10⟩)], [], []⟩
    20 "foo" "1.0.0" ⟨"1.0.0", "", "", false, 0, 10⟩ (by decide) (by decide)

/-- Claim C9: get_latest_version returns the in-process map entry whenever present,
with no expiry check and no state change on that path; the expires_at
comparison and the durable-entry deletion happen only on a map miss; an
expired latest mapping is evicted from the map (keyed by its stored
crate_name) only by cleanup_expired_data. -/
theorem c9_memory_map_no_expiry :
    (∀ (s : VMState) (now : Nat) (n ver : String),
      lookupKV n s.memoryCache = some ver →
      get_latest_version s now n = (some ver, s)) ∧
    (∀ (s : VMState) (now : Nat) (n : String) (m : LatestVersionMapping),
      lookupKV n s.memoryCache = none →
      lookupKV n s.latestTree = some m →
      now > m.expires_at →
      (get_latest_version s now n).1 = none ∧
      lookupKV n ((get_latest_version s now n).2).latestTree = none) ∧
    (∀ (s : VMState) (now : Nat) (n : String) (m : LatestVersionMapping),
      lookupKV n s.latestTree = some m →
      now > m.expires_at →
      lookupKV m.crate_name ((cleanup_expired_data s now).2).memoryCache = none) := by
  refine ⟨?_, ?_, ?_⟩
  · intro s now n ver h
    unfold get_latest_version
    rw [h]
  · intro s now n m h1 h2 h3
    simp only [get_latest_version, h1, h2]
    rw [if_pos h3]
    exact ⟨rfl, lookupKV_removeKV_self _ _⟩
  · intro s now n m h1 h2
    have hmem : (n, m) ∈ s.latestTree := lookupKV_mem _ n m h1
    have hfil : (n, m) ∈ s.latestTree.filter (fun p => decide (now > p.2.expires_at)) := by
      rw [List.mem_filter]
      exact ⟨hmem, decide_eq_true h2⟩
    have hname : m.crate_name ∈
        (s.latestTree.filter (fun p => decide (now > p.2.expires_at))).map
          (fun p => p.2.crate_name) :=
      List.mem_map_of_mem _ hfil
    show lookupKV m.crate_name
      (s.memoryCache.filter (fun p =>
        !(((s.latestTree.filter (fun p => decide (now > p.2.expires_at))).map
            (fun p => p.2.crate_name)).contains p.1))) = none
    exact lookupKV_filterNotMem _ _ _ hname

/-- Claim C9 witness: a latest pointer held in the memory map is returned at
now = 20 although its durable record expired at 10, and cleanup evicts it. -/
theorem c9_memory_map_no_expiry_witness :
    get_latest_version ⟨[], [("foo", ⟨"foo", "1.0.0", 0, 10⟩)], [("foo", "1.0.0")]⟩ 20 "foo"
      = (some "1.0.0", ⟨[], [("foo", ⟨"foo", "1.0.0", 0, 10⟩)], [("foo", "1.0.0")]⟩) ∧
    lookupKV "foo"
      ((cleanup_expired_data
          ⟨[], [("foo", ⟨"foo", "1.0.0", 0, 10⟩)], [("foo", "1.0.0")]⟩ 20).2).memoryCache
      = none :=
  ⟨c9_memory_map_no_expiry.1 ⟨[], [("foo", ⟨"foo", "1.0.0", 0, 10⟩)], [("foo", "1.0.0")]⟩
      20 "foo" "1.0.0" rfl,
   c9_memory_map_no_expiry.2.2 ⟨[], [("foo", ⟨"foo", "1.0.0", 0, 10⟩)], [("foo", "1.0.0")]⟩
      20 "foo" ⟨"foo", "1.0.0", 0, 10⟩ rfl (by decide)⟩
